import Mathlib

/-!
Verification of the sequential-filename allocator, prompt collection and
main control flow of `gemmi.py`.

Filenames, prompt lines and the API key are modelled as `List Char`.
A directory's contents are modelled as the list of entry names returned
by `os.listdir` (`os.makedirs(..., exist_ok=True)` on a missing or fresh
directory yields the empty listing).
-/

set_option autoImplicit false

/-- Decimal value of a digit string, as computed by Python's `int` on a
string of ASCII digits (`int(m.group(1))` at gemmi.py line 124). -/
def digitsVal (ds : List Char) : Nat :=
  ds.foldl (fun a c => 10 * a + (c.toNat - 48)) 0

/-- Fuel-driven decimal rendering, mirroring Python's `str` on a
non-negative integer: most significant digit first. -/
def natToDigitsAux : Nat → Nat → List Char → List Char
  | 0, _, acc => acc
  | fuel + 1, n, acc =>
    if n < 10 then Nat.digitChar (n % 10) :: acc
    else natToDigitsAux fuel (n / 10) (Nat.digitChar (n % 10) :: acc)

/-- Decimal rendering of `n`, as Python's `str(n)` / f-string formatting
(`f"{prefix}{next_index}{ext}"` at gemmi.py line 128). -/
def natToDigits (n : Nat) : List Char :=
  natToDigitsAux (n + 1) n []

/-- `dropPre p s` returns `some r` iff `s = p ++ r`: literal anchored
prefix match, one character at a time. -/
def dropPre : List Char → List Char → Option (List Char)
  | [], s => some s
  | _ :: _, [] => none
  | p :: ps, c :: cs => if p = c then dropPre ps cs else none

/-- `dropSuf e s` returns `some m` iff `s = m ++ e`: literal anchored
suffix match. -/
def dropSuf (e s : List Char) : Option (List Char) :=
  (dropPre e.reverse s.reverse).map List.reverse

/-- Exact anchored match: `parseExact pre ext fname = some k` iff `fname`
is exactly `pre`, then one or more decimal digits of value `k`, then
`ext`, with nothing else before or after. Filenames are modelled over
ASCII, where the character class `\d` is exactly `'0'..'9'`. -/
def parseExact (pre ext fname : List Char) : Option Nat :=
  match dropPre pre fname with
  | none => none
  | some rest =>
    match dropSuf ext rest with
    | none => none
    | some mid =>
      if !mid.isEmpty && mid.all Char.isDigit then some (digitsVal mid)
      else none

/-- Embedding of `pattern.match(fname)` plus `int(m.group(1))` for the
regex `^<pre>(\d+)<ext>$` built at gemmi.py line 118 (`re.escape` makes
`pre` and `ext` literal). Python's `$` asserts the end of the string or
the position just before a newline that ends the string, so the pattern
also accepts `pre`, digits, `ext` followed by one final `'\n'`. -/
def parseIndex (pre ext fname : List Char) : Option Nat :=
  match parseExact pre ext fname with
  | some k => some k
  | none =>
    match dropSuf ['\n'] fname with
    | some body => parseExact pre ext body
    | none => none

/-- One iteration of the scan loop at gemmi.py lines 121-125:
`max_index = max(max_index, idx)` when the name matches, else unchanged. -/
def scanStep (pre ext : List Char) (acc : Nat) (fname : List Char) : Nat :=
  match parseIndex pre ext fname with
  | some idx => max acc idx
  | none => acc

/-- The `max_index` computed by the scan loop over the directory listing,
starting from 0 (gemmi.py lines 119-125). -/
def maxIndex (pre ext : List Char) (listing : List (List Char)) : Nat :=
  listing.foldl (scanStep pre ext) 0

/-- Embedding of `next_image_filename` (gemmi.py lines 112-128): the
directory is represented by its listing; the result is
`prefix + str(max_index + 1) + ext`. -/
def next_image_filename (listing : List (List Char)) (pre ext : List Char) :
    List Char :=
  pre ++ natToDigits (maxIndex pre ext listing + 1) ++ ext

/-- `BANNER_WIDTH` constant (gemmi.py line 43). -/
def BANNER_WIDTH : Nat := 1200

/-- `BANNER_HEIGHT` constant (gemmi.py line 44). -/
def BANNER_HEIGHT : Nat := 628

/-- Whitespace in the sense of Python's `str.strip()` (ASCII range). -/
def pySpace (c : Char) : Bool :=
  c = ' ' || c = '\t' || c = '\n' || c = '\x0d' || c = '\x0b' || c = '\x0c'

/-- Python's `s.strip()`: drop leading and trailing whitespace. -/
def stripChars (s : List Char) : List Char :=
  ((s.dropWhile pySpace).reverse.dropWhile pySpace).reverse

/-- Python's `"\n".join(lines)` (gemmi.py line 147). -/
def joinLines : List (List Char) → List Char
  | [] => []
  | [l] => l
  | l :: rest => l ++ '\n' :: joinLines rest

/-- The prompt built at gemmi.py line 147: `"\n".join(lines).strip()`. -/
def promptOf (lines : List (List Char)) : List Char :=
  stripChars (joinLines lines)

/-- The input-reading loop at gemmi.py lines 141-146: `input()` is called
repeatedly; a non-empty line is accumulated, an empty line breaks the
loop. When standard input is exhausted before an empty line, `input()`
raises `EOFError`, which nothing catches: no line list is produced
(`none`). -/
def collectPrompt : List (List Char) → Option (List (List Char))
  | [] => none
  | l :: rest =>
    if l.isEmpty then some []
    else (collectPrompt rest).map (fun ls => l :: ls)

/-- A generated image, reduced to the attributes the program inspects:
its pixel dimensions. -/
structure Img where
  width : Nat
  height : Nat
deriving DecidableEq

/-- `image.resize((w, h), Image.LANCZOS)` (gemmi.py line 158): produces
an image of exactly the requested dimensions. -/
def resize (_img : Img) (w h : Nat) : Img :=
  ⟨w, h⟩

/-- Observable events of one run of `__main__`, in order: the stdin
prompt being requested, the outbound Gemini request, a file write, and
process termination with an exit code (an uncaught exception terminates
Python with code 1, as does `sys.exit(1)`). -/
inductive Event where
  | readPrompt : Event
  | networkCall : Event
  | writeFile : List Char → Img → Event
  | exited : Nat → Event
deriving DecidableEq

/-- Embedding of the `__main__` block (gemmi.py lines 131-169) as the
sequence of observable events of one run. `apiKey` is
`os.getenv("GEMINI_API_KEY")` after `load_dotenv` (`none` when the
credential file is missing or the key unset; `if not API_KEY` also
rejects an empty value). `provider` is the outcome of the Gemini call,
`writeOk` whether the file write succeeds, `listing` the contents of
the `images` directory at scan time. -/
def runMain (apiKey : Option (List Char)) (stdin : List (List Char))
    (provider : Except (List Char) Img) (writeOk : Bool)
    (listing : List (List Char)) : List Event :=
  match apiKey with
  | none => [Event.exited 1]
  | some key =>
    if key.isEmpty then [Event.exited 1]
    else
      Event.readPrompt ::
      match collectPrompt stdin with
      | none => [Event.exited 1]
      | some lines =>
        if (promptOf lines).isEmpty then [Event.exited 1]
        else
          Event.networkCall ::
          match provider with
          | Except.error _ => [Event.exited 1]
          | Except.ok img =>
            let resized := resize img BANNER_WIDTH BANNER_HEIGHT
            let fname := next_image_filename listing "img".data ".png".data
            if writeOk then [Event.writeFile fname resized, Event.exited 0]
            else [Event.exited 1]

/-! ### Lemmas about decimal digits -/

theorem digitChar_isDigit : ∀ m, m < 10 → (Nat.digitChar m).isDigit = true := by
  decide

theorem digitChar_val : ∀ m, m < 10 → (Nat.digitChar m).toNat - 48 = m := by
  decide

theorem digitsVal_append_singleton (ds : List Char) (c : Char) :
    digitsVal (ds ++ [c]) = 10 * digitsVal ds + (c.toNat - 48) := by
  simp [digitsVal, List.foldl_append]

theorem digitsVal_cons_zero (ds : List Char) :
    digitsVal ('0' :: ds) = digitsVal ds := by
  simp [digitsVal]

theorem natToDigitsAux_fuel (f1 f2 n : Nat) (acc : List Char)
    (h1 : n < f1) (h2 : n < f2) :
    natToDigitsAux f1 n acc = natToDigitsAux f2 n acc := by
  induction n using Nat.strong_induction_on generalizing f1 f2 acc with
  | _ n ih =>
    cases f1 with
    | zero => omega
    | succ a =>
      cases f2 with
      | zero => omega
      | succ b =>
        simp only [natToDigitsAux]
        by_cases h : n < 10
        · simp [h]
        · simp only [if_neg h]
          have hd : n / 10 < n := Nat.div_lt_self (by omega) (by omega)
          exact ih (n / 10) hd a b _ (by omega) (by omega)

theorem natToDigitsAux_acc (fuel n : Nat) (acc : List Char) (h : n < fuel) :
    natToDigitsAux fuel n acc = natToDigitsAux fuel n [] ++ acc := by
  induction fuel generalizing n acc with
  | zero => omega
  | succ f ih =>
    simp only [natToDigitsAux]
    by_cases h10 : n < 10
    · simp [h10]
    · simp only [if_neg h10]
      have hd : n / 10 < n := Nat.div_lt_self (by omega) (by omega)
      rw [ih (n / 10) _ (by omega), ih (n / 10) [Nat.digitChar (n % 10)] (by omega),
        List.append_assoc]
      rfl

theorem natToDigits_low (n : Nat) (h : n < 10) :
    natToDigits n = [Nat.digitChar n] := by
  unfold natToDigits
  simp only [natToDigitsAux]
  rw [if_pos h, Nat.mod_eq_of_lt h]

theorem natToDigits_split (n : Nat) (h : 10 ≤ n) :
    natToDigits n = natToDigits (n / 10) ++ [Nat.digitChar (n % 10)] := by
  have hd : n / 10 < n := Nat.div_lt_self (by omega) (by omega)
  have step1 : natToDigits n = natToDigitsAux n (n / 10) [Nat.digitChar (n % 10)] := by
    show natToDigitsAux (n + 1) n [] = _
    simp only [natToDigitsAux]
    rw [if_neg (by omega)]
  rw [step1, natToDigitsAux_acc n (n / 10) [Nat.digitChar (n % 10)] (by omega),
    natToDigitsAux_fuel n (n / 10 + 1) (n / 10) [] (by omega) (by omega)]
  rfl

theorem natToDigits_ne_nil (n : Nat) : natToDigits n ≠ [] := by
  by_cases h : n < 10
  · rw [natToDigits_low n h]; simp
  · rw [natToDigits_split n (by omega)]; simp

theorem natToDigits_all_digits (n : Nat) :
    (natToDigits n).all Char.isDigit = true := by
  induction n using Nat.strong_induction_on with
  | _ n ih =>
    by_cases h : n < 10
    · rw [natToDigits_low n h]
      simp [digitChar_isDigit n h]
    · rw [natToDigits_split n (by omega)]
      have hd : n / 10 < n := Nat.div_lt_self (by omega) (by omega)
      have h1 := ih (n / 10) hd
      have h2 := digitChar_isDigit (n % 10) (Nat.mod_lt _ (by omega))
      simp only [List.all_append, List.all_cons, List.all_nil, Bool.and_true, h1, h2,
        Bool.and_self]

theorem digitsVal_natToDigits (n : Nat) : digitsVal (natToDigits n) = n := by
  induction n using Nat.strong_induction_on with
  | _ n ih =>
    by_cases h : n < 10
    · rw [natToDigits_low n h]
      have := digitChar_val n h
      simp [digitsVal, this]
    · rw [natToDigits_split n (by omega), digitsVal_append_singleton]
      have hd : n / 10 < n := Nat.div_lt_self (by omega) (by omega)
      rw [ih (n / 10) hd, digitChar_val (n % 10) (Nat.mod_lt _ (by omega))]
      omega

/-! ### Lemmas about anchored matching -/

theorem dropPre_append (p r : List Char) : dropPre p (p ++ r) = some r := by
  induction p with
  | nil => rfl
  | cons c cs ih => simp [dropPre, ih]

theorem eq_of_dropPre (p : List Char) :
    ∀ s r : List Char, dropPre p s = some r → s = p ++ r := by
  induction p with
  | nil =>
    intro s r h
    simp only [dropPre, Option.some.injEq] at h
    simp [h]
  | cons c cs ih =>
    intro s r h
    cases s with
    | nil => exact absurd h (by simp [dropPre])
    | cons a as =>
      rw [dropPre] at h
      by_cases hca : c = a
      · rw [if_pos hca] at h
        subst hca
        simpa using ih as r h
      · rw [if_neg hca] at h
        exact absurd h (by simp)

theorem dropSuf_append (e m : List Char) : dropSuf e (m ++ e) = some m := by
  simp [dropSuf, List.reverse_append, dropPre_append]

theorem eq_of_dropSuf (e s m : List Char) (h : dropSuf e s = some m) :
    s = m ++ e := by
  unfold dropSuf at h
  cases hd : dropPre e.reverse s.reverse with
  | none => rw [hd] at h; simp at h
  | some r =>
    rw [hd] at h
    have hm : r.reverse = m := by simpa using h
    have hrev : s.reverse = e.reverse ++ r := eq_of_dropPre e.reverse s.reverse r hd
    have : s = (e.reverse ++ r).reverse := by
      rw [← hrev, List.reverse_reverse]
    rw [this, List.reverse_append, List.reverse_reverse, hm]

theorem parseExact_append (pre ext ds : List Char) (h1 : ds ≠ [])
    (h2 : ds.all Char.isDigit = true) :
    parseExact pre ext (pre ++ ds ++ ext) = some (digitsVal ds) := by
  have hne : ds.isEmpty = false := by
    cases ds with
    | nil => exact absurd rfl h1
    | cons a as => rfl
  simp only [parseExact, List.append_assoc, dropPre_append, dropSuf_append,
    hne, h2, Bool.not_false, Bool.and_self, if_pos]

theorem parseIndex_of_parseExact (pre ext fname : List Char) (k : Nat)
    (h : parseExact pre ext fname = some k) :
    parseIndex pre ext fname = some k := by
  unfold parseIndex
  rw [h]

theorem parseIndex_append (pre ext ds : List Char) (h1 : ds ≠ [])
    (h2 : ds.all Char.isDigit = true) :
    parseIndex pre ext (pre ++ ds ++ ext) = some (digitsVal ds) :=
  parseIndex_of_parseExact pre ext (pre ++ ds ++ ext) (digitsVal ds)
    (parseExact_append pre ext ds h1 h2)

theorem parseIndex_natToDigits (pre ext : List Char) (n : Nat) :
    parseIndex pre ext (pre ++ natToDigits n ++ ext) = some n := by
  rw [parseIndex_append pre ext (natToDigits n) (natToDigits_ne_nil n)
    (natToDigits_all_digits n), digitsVal_natToDigits]

/-! ### Lemmas about the scan loop -/

theorem le_scanStep (pre ext : List Char) (a : Nat) (f : List Char) :
    a ≤ scanStep pre ext a f := by
  unfold scanStep
  cases parseIndex pre ext f with
  | none => exact Nat.le_refl a
  | some k => exact Nat.le_max_left a k

theorem le_foldl_scan (pre ext : List Char) (listing : List (List Char)) :
    ∀ a : Nat, a ≤ listing.foldl (scanStep pre ext) a := by
  induction listing with
  | nil => intro a; simp
  | cons g t ih =>
    intro a
    simp only [List.foldl_cons]
    exact Nat.le_trans (le_scanStep pre ext a g) (ih (scanStep pre ext a g))

theorem foldl_scan_ge (pre ext : List Char) (listing : List (List Char))
    (f : List Char) (hf : f ∈ listing) (k : Nat)
    (hk : parseIndex pre ext f = some k) :
    ∀ a : Nat, k ≤ listing.foldl (scanStep pre ext) a := by
  induction listing with
  | nil => cases hf
  | cons g t ih =>
    intro a
    simp only [List.foldl_cons]
    rcases List.mem_cons.mp hf with h | h
    · subst h
      have h1 : k ≤ scanStep pre ext a f := by
        unfold scanStep
        rw [hk]
        exact Nat.le_max_right a k
      exact Nat.le_trans h1 (le_foldl_scan pre ext t (scanStep pre ext a f))
    · exact ih h (scanStep pre ext a g)

theorem foldl_scan_attained (pre ext : List Char) (listing : List (List Char)) :
    ∀ a : Nat, listing.foldl (scanStep pre ext) a = a ∨
      ∃ f ∈ listing, parseIndex pre ext f =
        some (listing.foldl (scanStep pre ext) a) := by
  induction listing with
  | nil => intro a; left; rfl
  | cons g t ih =>
    intro a
    simp only [List.foldl_cons]
    rcases ih (scanStep pre ext a g) with h | ⟨f, hf, hp⟩
    · rw [h]
      unfold scanStep
      cases hg : parseIndex pre ext g with
      | none => left; rfl
      | some k =>
        rcases Nat.le_total k a with hle | hle
        · left
          show max a k = a
          exact Nat.max_eq_left hle
        · right
          refine ⟨g, List.mem_cons_self g t, ?_⟩
          rw [hg]
          show some k = some (max a k)
          rw [Nat.max_eq_right hle]
    · right
      exact ⟨f, List.mem_cons_of_mem g hf, hp⟩

/-! ### Lemmas about prompt collection and permutation invariance -/

theorem collectPrompt_of_mem_nil (stdin : List (List Char)) (h : [] ∈ stdin) :
    collectPrompt stdin = some (stdin.takeWhile (fun l => !l.isEmpty)) := by
  induction stdin with
  | nil => cases h
  | cons l rest ih =>
    by_cases hl : l.isEmpty
    · have hnil : l = [] := by
        cases l with
        | nil => rfl
        | cons a as => exact absurd hl (by simp)
      simp [collectPrompt, hl, List.takeWhile_cons, hnil]
    · have hmem : [] ∈ rest := by
        rcases List.mem_cons.mp h with h1 | h1
        · exact absurd h1.symm (by
            intro hc
            rw [hc] at hl
            exact hl rfl)
        · exact h1
      simp [collectPrompt, hl, List.takeWhile_cons, ih hmem]

theorem collectPrompt_of_not_mem_nil (stdin : List (List Char))
    (h : [] ∉ stdin) : collectPrompt stdin = none := by
  induction stdin with
  | nil => rfl
  | cons l rest ih =>
    have hl : ¬ l.isEmpty = true := by
      intro hl
      apply h
      cases l with
      | nil => exact List.mem_cons_self [] rest
      | cons a as => exact absurd hl (by simp)
    simp [collectPrompt, hl, ih (fun hm => h (List.mem_cons_of_mem l hm))]

theorem scanStep_comm (pre ext : List Char) (a : Nat) (x y : List Char) :
    scanStep pre ext (scanStep pre ext a x) y =
      scanStep pre ext (scanStep pre ext a y) x := by
  unfold scanStep
  cases parseIndex pre ext x with
  | none => rfl
  | some kx =>
    cases parseIndex pre ext y with
    | none => rfl
    | some ky =>
      show max (max a kx) ky = max (max a ky) kx
      omega

theorem foldl_scan_perm (pre ext : List Char) {l1 l2 : List (List Char)}
    (p : l1.Perm l2) :
    ∀ a : Nat, l1.foldl (scanStep pre ext) a = l2.foldl (scanStep pre ext) a := by
  induction p with
  | nil => intro a; rfl
  | cons x _ ih =>
    intro a
    simp only [List.foldl_cons]
    exact ih (scanStep pre ext a x)
  | swap x y l =>
    intro a
    simp only [List.foldl_cons]
    rw [scanStep_comm]
  | trans _ _ ih1 ih2 =>
    intro a
    rw [ih1 a, ih2 a]

/-! ### Claims about the sequential file namer -/

/-- C1 counterexample: the claim computes `M` over the filenames exactly
matching `pre`, digits, `ext`. In the listing `["img1.png", "img9.png\n"]`
the only exact match is `img1.png` (`M = 1`), so the claim requires
`img2.png`; but Python's `$` also matches just before a newline ending
the string, so the scan accepts `img9.png\n` and the code returns
`img10.png`. -/
theorem C1_counterexample :
    parseExact "img".data ".png".data "img1.png".data = some 1 ∧
    parseExact "img".data ".png".data "img9.png\n".data = none ∧
    next_image_filename ["img1.png".data, "img9.png\n".data]
        "img".data ".png".data = "img10.png".data ∧
    next_image_filename ["img1.png".data, "img9.png\n".data]
        "img".data ".png".data ≠ "img2.png".data := by
  refine ⟨by decide, by decide, by decide, by decide⟩

/-- C1 (amended): for every directory listing containing at least one
filename accepted by the scan pattern — `pre`, then decimal digits, then
`ext`, optionally followed by one final newline, a quirk of Python's `$`
— `next_image_filename` returns `pre ++ str(M + 1) ++ ext` where `M` is
the maximum integer parsed from the digit groups of the accepted
filenames; gaps below `M` are never reused. -/
theorem C1_next_is_max_plus_one (listing : List (List Char))
    (pre ext : List Char)
    (h : ∃ f ∈ listing, (parseIndex pre ext f).isSome = true) :
    ∃ M : Nat,
      (∃ f ∈ listing, parseIndex pre ext f = some M) ∧
      (∀ f ∈ listing, ∀ k, parseIndex pre ext f = some k → k ≤ M) ∧
      next_image_filename listing pre ext = pre ++ natToDigits (M + 1) ++ ext := by
  refine ⟨maxIndex pre ext listing, ?_, ?_, rfl⟩
  · rcases h with ⟨f, hf, hs⟩
    rcases Option.isSome_iff_exists.mp hs with ⟨k, hk⟩
    rcases foldl_scan_attained pre ext listing 0 with h0 | hatt
    · have hk0 : k ≤ listing.foldl (scanStep pre ext) 0 :=
        foldl_scan_ge pre ext listing f hf k hk 0
      refine ⟨f, hf, ?_⟩
      rw [hk]
      show some k = some (listing.foldl (scanStep pre ext) 0)
      rw [h0]
      congr 1
      omega
    · exact hatt
  · intro f hf k hk
    exact foldl_scan_ge pre ext listing f hf k hk 0

theorem C1_witness :
    ∃ M : Nat,
      (∃ f ∈ (["img1.png".data, "img5.png".data] : List (List Char)),
        parseIndex "img".data ".png".data f = some M) ∧
      (∀ f ∈ (["img1.png".data, "img5.png".data] : List (List Char)),
        ∀ k, parseIndex "img".data ".png".data f = some k → k ≤ M) ∧
      next_image_filename ["img1.png".data, "img5.png".data]
          "img".data ".png".data =
        "img".data ++ natToDigits (M + 1) ++ ".png".data :=
  C1_next_is_max_plus_one ["img1.png".data, "img5.png".data]
    "img".data ".png".data ⟨"img5.png".data, by decide, by decide⟩

/-- C2: on an empty (or freshly created) directory listing,
`next_image_filename` returns `pre ++ "1" ++ ext`; with the default
arguments the result is `"img1.png"`. -/
theorem C2_empty_listing_returns_one :
    (∀ pre ext : List Char, next_image_filename [] pre ext = pre ++ ['1'] ++ ext) ∧
    next_image_filename [] "img".data ".png".data = "img1.png".data := by
  constructor
  · intro pre ext
    rfl
  · decide

/-- C3 counterexample: `img9.png\n` does not match `pre`, digits, `ext`
with nothing else before or after (it carries a trailing newline), yet
it changes the result of `next_image_filename`: alone in a directory it
yields `img10.png` instead of the `img1.png` produced by an empty
directory, because Python's `$` also matches just before a newline
ending the string. -/
theorem C3_counterexample :
    parseExact "img".data ".png".data "img9.png\n".data = none ∧
    next_image_filename ["img9.png\n".data] "img".data ".png".data =
      "img10.png".data ∧
    next_image_filename [] "img".data ".png".data = "img1.png".data ∧
    next_image_filename ["img9.png\n".data] "img".data ".png".data ≠
      next_image_filename [] "img".data ".png".data := by
  refine ⟨by decide, by decide, by decide, by decide⟩

/-- C3 (amended): a filename rejected by the scan pattern — `pre`,
digits, `ext`, where Python's `$` additionally tolerates one final
newline — contributes nothing to the computed maximum and never changes
the result of `next_image_filename`; in particular `image2.png`,
`img2.jpg`, `imgX.png`, `ximg2.png` and `img2.pngx` are rejected for
prefix `img` and extension `.png` (matching is anchored and
case-sensitive), while `img9.png\n` is accepted with value 9. -/
theorem C3_nonmatching_ignored :
    (∀ (pre ext f : List Char) (l1 l2 : List (List Char)),
        parseIndex pre ext f = none →
        maxIndex pre ext (l1 ++ f :: l2) = maxIndex pre ext (l1 ++ l2) ∧
        next_image_filename (l1 ++ f :: l2) pre ext =
          next_image_filename (l1 ++ l2) pre ext) ∧
    parseIndex "img".data ".png".data "image2.png".data = none ∧
    parseIndex "img".data ".png".data "img2.jpg".data = none ∧
    parseIndex "img".data ".png".data "imgX.png".data = none ∧
    parseIndex "img".data ".png".data "ximg2.png".data = none ∧
    parseIndex "img".data ".png".data "img2.pngx".data = none ∧
    parseIndex "img".data ".png".data "img9.png\n".data = some 9 := by
  refine ⟨?_, by decide, by decide, by decide, by decide, by decide, by decide⟩
  intro pre ext f l1 l2 hf
  have hmax : maxIndex pre ext (l1 ++ f :: l2) = maxIndex pre ext (l1 ++ l2) := by
    unfold maxIndex
    rw [List.foldl_append, List.foldl_append, List.foldl_cons]
    congr 1
    unfold scanStep
    rw [hf]
  refine ⟨hmax, ?_⟩
  unfold next_image_filename
  rw [hmax]

theorem C3_witness :
    maxIndex "img".data ".png".data
        (["img1.png".data] ++ "image2.png".data :: ["img4.png".data]) =
      maxIndex "img".data ".png".data (["img1.png".data] ++ ["img4.png".data]) ∧
    next_image_filename
        (["img1.png".data] ++ "image2.png".data :: ["img4.png".data])
        "img".data ".png".data =
      next_image_filename (["img1.png".data] ++ ["img4.png".data])
        "img".data ".png".data :=
  C3_nonmatching_ignored.1 "img".data ".png".data "image2.png".data
    ["img1.png".data] ["img4.png".data] (by decide)

/-- C4: a matching digit group is parsed as its decimal integer value, so
leading zeros are immaterial: a leading `'0'` does not change the parsed
value, and a directory containing only `img007.png` yields `img8.png`. -/
theorem C4_leading_zeros (pre ext ds : List Char) (h1 : ds ≠ [])
    (h2 : ds.all Char.isDigit = true) :
    parseIndex pre ext (pre ++ ds ++ ext) = some (digitsVal ds) ∧
    digitsVal ('0' :: ds) = digitsVal ds ∧
    next_image_filename ["img007.png".data] "img".data ".png".data =
      "img8.png".data :=
  ⟨parseIndex_append pre ext ds h1 h2, digitsVal_cons_zero ds, by decide⟩

theorem C4_witness :
    parseIndex "img".data ".png".data "img007.png".data = some 7 ∧
    digitsVal ('0' :: "007".data) = digitsVal "007".data ∧
    next_image_filename ["img007.png".data] "img".data ".png".data =
      "img8.png".data :=
  C4_leading_zeros "img".data ".png".data "007".data (by decide) (by decide)

/-- C5: the filename returned by `next_image_filename` is never equal to
an entry of the listing it scanned: the membership test comes out
`false` on every listing. -/
theorem C5_result_fresh (listing : List (List Char)) (pre ext : List Char) :
    listing.contains (next_image_filename listing pre ext) = false := by
  have hnot : next_image_filename listing pre ext ∉ listing := by
    intro hmem
    have hparse : parseIndex pre ext (next_image_filename listing pre ext) =
        some (maxIndex pre ext listing + 1) :=
      parseIndex_natToDigits pre ext (maxIndex pre ext listing + 1)
    have hle : maxIndex pre ext listing + 1 ≤
        listing.foldl (scanStep pre ext) 0 :=
      foldl_scan_ge pre ext listing (next_image_filename listing pre ext) hmem
        (maxIndex pre ext listing + 1) hparse 0
    have : maxIndex pre ext listing = listing.foldl (scanStep pre ext) 0 := rfl
    omega
  simpa using hnot

/-- C10: the result of `next_image_filename` depends only on the multiset
of directory entries, not on the enumeration order: permuting the listing
never changes the returned filename. -/
theorem C10_perm_invariant (l1 l2 : List (List Char)) (pre ext : List Char)
    (p : l1.Perm l2) :
    next_image_filename l1 pre ext = next_image_filename l2 pre ext := by
  unfold next_image_filename
  have h : maxIndex pre ext l1 = maxIndex pre ext l2 :=
    foldl_scan_perm pre ext p 0
  rw [h]

theorem C10_witness :
    next_image_filename ["img1.png".data, "img2.png".data]
        "img".data ".png".data =
      next_image_filename ["img2.png".data, "img1.png".data]
        "img".data ".png".data :=
  C10_perm_invariant ["img1.png".data, "img2.png".data]
    ["img2.png".data, "img1.png".data] "img".data ".png".data (by decide)

/-! ### Claims about prompt collection and the main control flow -/

/-- C6 counterexample: the claim asserts that prompt collection also
stops at end-of-input and still yields the joined, trimmed prompt; but on
the input lines `["Hello"]` (end-of-input before any empty line) the loop
at gemmi.py lines 142-146 calls `input()` on the exhausted stream, which
raises an uncaught `EOFError`: no line list — in particular not the
claimed `["Hello"]` — is ever produced. -/
theorem C6_counterexample :
    collectPrompt ["Hello".data] = none ∧
    collectPrompt ["Hello".data] ≠ some ["Hello".data] := by
  constructor
  · decide
  · decide

/-- C6 (amended): prompt collection accumulates lines until the first
empty line and, when an empty line is present in the input, yields the
accumulated lines joined by newlines and trimmed; in particular
`["Hello", "World", ""]` yields `"Hello\nWorld"`. When the input ends
before any empty line, `input()` raises `EOFError` and no prompt is
produced. -/
theorem C6_amended_prompt_collection :
    (∀ stdin : List (List Char), [] ∈ stdin →
      collectPrompt stdin = some (stdin.takeWhile (fun l => !l.isEmpty))) ∧
    (∀ stdin : List (List Char), [] ∉ stdin → collectPrompt stdin = none) ∧
    collectPrompt ["Hello".data, "World".data, []] =
      some ["Hello".data, "World".data] ∧
    promptOf ["Hello".data, "World".data] = "Hello\nWorld".data :=
  ⟨collectPrompt_of_mem_nil, collectPrompt_of_not_mem_nil, by decide, by decide⟩

theorem C6_amended_witness :
    collectPrompt ["Hi".data, []] =
      some ((["Hi".data, []] : List (List Char)).takeWhile
        (fun l => !l.isEmpty)) ∧
    collectPrompt ["Hi".data] = none :=
  ⟨C6_amended_prompt_collection.1 ["Hi".data, []] (by decide),
    C6_amended_prompt_collection.2.1 ["Hi".data] (by decide)⟩

/-- C7: whenever the collected, trimmed prompt is empty (the empty first
line being a special case), the run logs the empty-prompt error and exits
with code 1, and no image-generation network call is made. -/
theorem C7_empty_prompt_no_network (key : List Char) (stdin : List (List Char))
    (provider : Except (List Char) Img) (writeOk : Bool)
    (listing : List (List Char)) (lines : List (List Char))
    (hkey : key ≠ [])
    (hcol : collectPrompt stdin = some lines)
    (hempty : promptOf lines = []) :
    runMain (some key) stdin provider writeOk listing =
      [Event.readPrompt, Event.exited 1] ∧
    Event.networkCall ∉ runMain (some key) stdin provider writeOk listing ∧
    Event.exited 0 ∉ runMain (some key) stdin provider writeOk listing := by
  have hk : key.isEmpty = false := by
    cases key with
    | nil => exact absurd rfl hkey
    | cons a as => rfl
  have hrun : runMain (some key) stdin provider writeOk listing =
      [Event.readPrompt, Event.exited 1] := by
    simp [runMain, hk, hcol, hempty]
  refine ⟨hrun, ?_, ?_⟩ <;> rw [hrun] <;> decide

theorem C7_witness :
    runMain (some "k".data) [[]] (Except.ok ⟨512, 512⟩) true [] =
      [Event.readPrompt, Event.exited 1] ∧
    Event.networkCall ∉ runMain (some "k".data) [[]]
      (Except.ok ⟨512, 512⟩) true [] ∧
    Event.exited 0 ∉ runMain (some "k".data) [[]]
      (Except.ok ⟨512, 512⟩) true [] :=
  C7_empty_prompt_no_network "k".data [[]] (Except.ok ⟨512, 512⟩) true [] []
    (by decide) (by decide) (by decide)

/-- C8: when the credential is missing (`os.getenv` returns `None`) or
unset/empty, the run exits with code 1 immediately: no stdin prompt is
requested and no network call is made; conversely, a run that requests
the prompt or calls the provider must have loaded a non-empty
credential. -/
theorem C8_credential_gate (stdin : List (List Char))
    (provider : Except (List Char) Img) (writeOk : Bool)
    (listing : List (List Char)) :
    runMain none stdin provider writeOk listing = [Event.exited 1] ∧
    runMain (some []) stdin provider writeOk listing = [Event.exited 1] ∧
    Event.readPrompt ∉ runMain none stdin provider writeOk listing ∧
    Event.networkCall ∉ runMain none stdin provider writeOk listing ∧
    Event.readPrompt ∉ runMain (some []) stdin provider writeOk listing ∧
    Event.networkCall ∉ runMain (some []) stdin provider writeOk listing ∧
    (∀ key : Option (List Char),
      (Event.readPrompt ∈ runMain key stdin provider writeOk listing ∨
        Event.networkCall ∈ runMain key stdin provider writeOk listing) →
      ∃ k, key = some k ∧ k ≠ []) := by
  have h1 : runMain none stdin provider writeOk listing = [Event.exited 1] := rfl
  have h2 : runMain (some []) stdin provider writeOk listing =
      [Event.exited 1] := rfl
  refine ⟨h1, h2, by rw [h1]; decide, by rw [h1]; decide, by rw [h2]; decide,
    by rw [h2]; decide, ?_⟩
  intro key hmem
  cases key with
  | none =>
    rw [h1] at hmem
    rcases hmem with hm | hm <;> simp at hm
  | some k =>
    refine ⟨k, rfl, ?_⟩
    intro hknil
    subst hknil
    rw [h2] at hmem
    rcases hmem with hm | hm <;> simp at hm

theorem C8_witness :
    ∃ k, (some "k".data : Option (List Char)) = some k ∧ k ≠ [] :=
  (C8_credential_gate ["Hi".data, []] (Except.ok ⟨512, 512⟩) true
      []).2.2.2.2.2.2 (some "k".data) (Or.inl (by decide))

/-- C9: every run either writes exactly one complete image, resized to
1200 by 628, under the next sequential filename and exits 0, or it fails
(credential, prompt, provider, or write failure), writes no image file,
and exits 1; at most one network call is ever made (no retry) and there
is no intermediate success state. The concrete end-to-end scenario of the
spec (listing `img1.png`, `img2.png`, provider returns a 512 by 512
image, write succeeds) produces exactly `img3.png` at 1200 by 628 and
exit code 0. -/
theorem C9_all_or_nothing :
    (∀ (key : Option (List Char)) (stdin : List (List Char))
        (provider : Except (List Char) Img) (writeOk : Bool)
        (listing : List (List Char)),
      ((∃ img0,
          provider = Except.ok img0 ∧
          runMain key stdin provider writeOk listing =
            [Event.readPrompt, Event.networkCall,
              Event.writeFile
                (next_image_filename listing "img".data ".png".data)
                ⟨1200, 628⟩,
              Event.exited 0]) ∨
        ((∀ (f : List Char) (i : Img),
            Event.writeFile f i ∉ runMain key stdin provider writeOk listing) ∧
          Event.exited 1 ∈ runMain key stdin provider writeOk listing ∧
          Event.exited 0 ∉ runMain key stdin provider writeOk listing)) ∧
      (runMain key stdin provider writeOk listing).count Event.networkCall ≤ 1) ∧
    runMain (some "k".data) ["Hello".data, []] (Except.ok ⟨512, 512⟩) true
        ["img1.png".data, "img2.png".data] =
      [Event.readPrompt, Event.networkCall,
        Event.writeFile "img3.png".data ⟨1200, 628⟩, Event.exited 0] := by
  refine ⟨?_, by decide⟩
  intro key stdin provider writeOk listing
  cases key with
  | none =>
    have ht : runMain none stdin provider writeOk listing =
        [Event.exited 1] := rfl
    rw [ht]
    exact ⟨Or.inr ⟨fun f i => by simp, by simp, by decide⟩, by decide⟩
  | some key =>
    by_cases hk : key.isEmpty
    · have ht : runMain (some key) stdin provider writeOk listing =
          [Event.exited 1] := by
        simp [runMain, hk]
      rw [ht]
      exact ⟨Or.inr ⟨fun f i => by simp, by simp, by decide⟩, by decide⟩
    · cases hcol : collectPrompt stdin with
      | none =>
        have ht : runMain (some key) stdin provider writeOk listing =
            [Event.readPrompt, Event.exited 1] := by
          simp [runMain, hk, hcol]
        rw [ht]
        exact ⟨Or.inr ⟨fun f i => by simp, by simp, by decide⟩, by decide⟩
      | some lines =>
        by_cases hp : (promptOf lines).isEmpty
        · have ht : runMain (some key) stdin provider writeOk listing =
              [Event.readPrompt, Event.exited 1] := by
            simp [runMain, hk, hcol, hp]
          rw [ht]
          exact ⟨Or.inr ⟨fun f i => by simp, by simp, by decide⟩, by decide⟩
        · cases provider with
          | error e =>
            have ht : runMain (some key) stdin (Except.error e) writeOk
                listing =
                [Event.readPrompt, Event.networkCall, Event.exited 1] := by
              simp [runMain, hk, hcol, hp]
            rw [ht]
            exact ⟨Or.inr ⟨fun f i => by simp, by simp, by decide⟩, by decide⟩
          | ok img =>
            cases writeOk with
            | false =>
              have ht : runMain (some key) stdin (Except.ok img) false
                  listing =
                  [Event.readPrompt, Event.networkCall, Event.exited 1] := by
                simp [runMain, hk, hcol, hp]
              rw [ht]
              exact ⟨Or.inr ⟨fun f i => by simp, by simp, by decide⟩,
                by decide⟩
            | true =>
              have ht : runMain (some key) stdin (Except.ok img) true
                  listing =
                  [Event.readPrompt, Event.networkCall,
                    Event.writeFile
                      (next_image_filename listing "img".data ".png".data)
                      ⟨1200, 628⟩,
                    Event.exited 0] := by
                simp [runMain, hk, hcol, hp, resize, BANNER_WIDTH,
                  BANNER_HEIGHT]
              rw [ht]
              refine ⟨Or.inl ⟨img, rfl, rfl⟩, ?_⟩
              simp [List.count_cons]
